import Mathlib

/-!
Shallow embedding of the booking engine of the Advisor Scheduler
(src/services/db_manager.py) and of the tool-calling loop of
src/services/llm_engine.py.

Modelling conventions:
* a Python dict is an insertion-ordered association list (`dictGet`
  returns the first binding, `dictSet` replaces the first binding in
  place or appends a fresh key at the end, exactly like dict assignment);
* JSON `null` and an absent key are both read through `dict.get` in the
  source, so both are modelled as `Option.none`;
* the random code generator `_generate_booking_code` is modelled by an
  explicit code argument supplied to every operation that draws a code;
* `_save_store` and the outbound n8n webhook `trigger_mcp_action` are
  modelled as an event trace attached to each operation's output, in
  execution order;
* the Google-calendar side effect of `book_slot` only influences the
  user-facing confirmation message; it is modelled by the boolean
  argument `calendarOk`.
-/

namespace Scheduler

/-- A slot record of store.json: `status`, `booking_id`, `topic`,
`user_alias`.  The source reads the last three through `dict.get`, so an
absent key and an explicit `null` are both `none`. -/
structure Slot where
  status : String
  booking_id : Option String
  topic : Option String
  user_alias : Option String
deriving DecidableEq

/-- A waitlist entry as appended by `add_to_waitlist`. -/
structure WaitlistEntry where
  date : String
  time : String
  topic : String
  user_alias : String
  waitlist_id : String
deriving DecidableEq

/-- First binding of key `k` in an association list (Python `dict[k]` /
`dict.get(k)`). -/
def dictGet {α : Type} (k : String) : List (String × α) → Option α
  | [] => none
  | (k1, v) :: rest => if k1 = k then some v else dictGet k rest

/-- Python `dict[k] = v`: replace the first binding of `k` in place, or
append a fresh binding at the end. -/
def dictSet {α : Type} (k : String) (v : α) : List (String × α) → List (String × α)
  | [] => [(k, v)]
  | (k1, v1) :: rest => if k1 = k then (k1, v) :: rest else (k1, v1) :: dictSet k v rest

/-- The nested `slots` map of store.json: date -> time -> slot. -/
abbrev Slots := List (String × List (String × Slot))

/-- The aggregate stored in store.json. -/
structure Store where
  slots : Slots
  waitlist : List WaitlistEntry
deriving DecidableEq

/-- `store["slots"][d][t]`, read through `.get`. -/
def getSlot (d t : String) (sl : Slots) : Option Slot :=
  (dictGet d sl).bind (dictGet t)

/-- `store["slots"][d][t] = v` (both keys exist whenever the engine
writes; if the date is absent the map is unchanged). -/
def setSlot (d t : String) (v : Slot) (sl : Slots) : Slots :=
  match dictGet d sl with
  | some inner => dictSet d (dictSet t v inner) sl
  | none => sl

/-- External effects of one engine operation, in execution order:
`save` is a `_save_store` call, the two notify events are n8n webhook
triggers (`trigger_mcp_action "cancel"` resp. `"waitlist"`). -/
inductive Evt
  | save
  | notifyCancel (code date time : String)
  | notifyWaitlist (wid : String)
deriving DecidableEq

/-- Output of an engine operation: the returned result value, the store
left on disk, and the external events in order. -/
structure EngineOut (ρ : Type) where
  res : ρ
  store : Store
  events : List Evt
deriving DecidableEq

/-- Inner loop of the booking-code scans: first time slot of a date dict
whose `booking_id` equals the code. -/
def findCodeIn (c : String) : List (String × Slot) → Option (String × Slot)
  | [] => none
  | (t, v) :: rest => if v.booking_id = some c then some (t, v) else findCodeIn c rest

/-- The nested scan `for date ... for time ... if booking_id == code`
used by cancel_booking, lookup_booking, modify_booking and
reschedule_booking: first `(date, time, slot)` in iteration order whose
`booking_id` equals the code. -/
def findCode (c : String) : Slots → Option (String × String × Slot)
  | [] => none
  | (d, times) :: rest =>
    match findCodeIn c times with
    | some (t, v) => some (d, t, v)
    | none => findCode c rest

/-- Result dict of `book_slot`. -/
structure BookRes where
  status : String
  message : String
  code : Option String
  date : Option String
  time : Option String
  topic : Option String
  user_alias : Option String
deriving DecidableEq

/-- An error return of `book_slot`: only `status` and `message`. -/
def bookErr (msg : String) : BookRes :=
  ⟨"error", msg, none, none, none, none, none⟩

/-- `book_slot` of db_manager.py.  `newCode` is the value drawn from
`_generate_booking_code`; `calendarOk` tells whether the external
calendar-event creation succeeded (it only affects the message). -/
def book_slot (newCode : String) (calendarOk : Bool)
    (date_str time_str topic user_alias : String) (s : Store) :
    EngineOut BookRes :=
  match dictGet date_str s.slots with
  | none => ⟨bookErr ("No slots available for date " ++ date_str), s, []⟩
  | some times =>
    match dictGet time_str times with
    | none =>
      ⟨bookErr ("Invalid time slot " ++ time_str ++ ". Available slots are 14:00 and 15:00."),
        s, []⟩
    | some slot =>
      if slot.status ≠ "available" then
        ⟨bookErr ("Slot at " ++ time_str ++ " on " ++ date_str ++ " is already booked"), s, []⟩
      else
        let s1 : Store :=
          { s with slots :=
              (setSlot date_str time_str ⟨"booked", some newCode, some topic, some user_alias⟩
                s.slots) }
        let msg :=
          if calendarOk then "Booking Confirmed! Event added to your Google Calendar."
          else "Booking saved locally. Note: Calendar event could not be created automatically."
        ⟨⟨"success", msg, some newCode, some date_str, some time_str, some topic,
            some user_alias⟩, s1, [Evt.save]⟩

/-- Pop the first element satisfying `p`, keeping the rest in order
(the `for i, entry in enumerate(...): ... pop(i); break` pattern). -/
def popFirst {α : Type} (p : α → Bool) : List α → Option (α × List α)
  | [] => none
  | a :: rest =>
    if p a then some (a, rest)
    else
      match popFirst p rest with
      | some (w, rest1) => some (w, a :: rest1)
      | none => none

/-- Waitlist-entry match on an exact `(date, time)` pair. -/
def wlMatch (d t : String) (e : WaitlistEntry) : Bool :=
  e.date == d && e.time == t

/-- The `promoted` sub-dict of a cancel-with-promotion result. -/
structure Promoted where
  new_booking_code : String
  user_alias : String
  old_waitlist_id : String
deriving DecidableEq

/-- Result dict of `cancel_booking`. -/
structure CancelRes where
  status : String
  message : String
  date : Option String
  time : Option String
  promoted : Option Promoted
deriving DecidableEq

/-- `cancel_booking` of db_manager.py.  `newCode` is the code drawn for
a promoted waitlist user (unused when nobody is promoted).  Note that
the n8n webhook is only reached on the no-waitlist path: the promotion
branch returns before the webhook block. -/
def cancel_booking (newCode : String) (booking_code : String) (s : Store) :
    EngineOut CancelRes :=
  match findCode booking_code s.slots with
  | none =>
    ⟨⟨"error", "Booking code " ++ booking_code ++ " not found", none, none, none⟩, s, []⟩
  | some (d, t, _) =>
    match popFirst (wlMatch d t) s.waitlist with
    | some (w, rest) =>
      let s1 : Store :=
        ⟨setSlot d t ⟨"booked", some newCode, some w.topic, some w.user_alias⟩ s.slots, rest⟩
      ⟨⟨"success",
          "Booking " ++ booking_code ++ " cancelled. " ++ w.user_alias ++
            " promoted from waitlist!",
          some d, some t, some ⟨newCode, w.user_alias, w.waitlist_id⟩⟩, s1, [Evt.save]⟩
    | none =>
      let s1 : Store := ⟨setSlot d t ⟨"available", none, none, none⟩ s.slots, s.waitlist⟩
      ⟨⟨"success", "Booking " ++ booking_code ++ " cancelled successfully", some d, some t,
          none⟩, s1, [Evt.save, Evt.notifyCancel booking_code d t]⟩

/-- Result dict of `add_to_waitlist`. -/
structure WaitRes where
  status : String
  message : String
  waitlist_id : String
  position : Nat
deriving DecidableEq

/-- `add_to_waitlist` of db_manager.py; `wid` is the code drawn for the
new entry. -/
def add_to_waitlist (wid : String) (date_str time_str topic user_alias : String) (s : Store) :
    EngineOut WaitRes :=
  let position := (s.waitlist.filter (wlMatch date_str time_str)).length + 1
  let entry : WaitlistEntry := ⟨date_str, time_str, topic, user_alias, wid⟩
  ⟨⟨"success", "Added to waitlist for " ++ date_str ++ " at " ++ time_str, wid, position⟩,
    { s with waitlist := s.waitlist ++ [entry] }, [Evt.save, Evt.notifyWaitlist wid]⟩

/-- The `booking` sub-dict returned by lookup/modify/reschedule. -/
structure BookingView where
  booking_id : String
  date : String
  time : String
  topic : String
  user_alias : String
deriving DecidableEq

/-- Result dict of `lookup_booking`. -/
structure LookupRes where
  status : String
  message : Option String
  booking : Option BookingView
deriving DecidableEq

/-- `lookup_booking` of db_manager.py (read only, no store output). -/
def lookup_booking (booking_code : String) (s : Store) : LookupRes :=
  match findCode booking_code s.slots with
  | some (d, t, v) =>
    ⟨"success", none, some ⟨booking_code, d, t, v.topic.getD "", v.user_alias.getD "Anonymous"⟩⟩
  | none => ⟨"error", some ("Booking " ++ booking_code ++ " not found"), none⟩

/-- Python truthiness of an `Optional[str]` argument: `None` and the
empty string are falsy. -/
def truthy : Option String → Bool
  | none => false
  | some x => x ≠ ""

/-- Result dict of `modify_booking` and `reschedule_booking`. -/
structure ModifyRes where
  status : String
  message : String
  booking : Option BookingView
deriving DecidableEq

/-- `modify_booking` of db_manager.py: a field is overwritten only when
the supplied value is truthy (`if new_topic:` / `if new_alias:`). -/
def modify_booking (booking_code : String) (new_topic new_alias : Option String) (s : Store) :
    EngineOut ModifyRes :=
  match findCode booking_code s.slots with
  | none => ⟨⟨"error", "Booking " ++ booking_code ++ " not found", none⟩, s, []⟩
  | some (d, t, v) =>
    let v1 : Slot :=
      { v with topic := if truthy new_topic then new_topic else v.topic,
               user_alias := if truthy new_alias then new_alias else v.user_alias }
    ⟨⟨"success", "Booking updated successfully",
        some ⟨booking_code, d, t, v1.topic.getD "", v1.user_alias.getD ""⟩⟩,
      { s with slots := setSlot d t v1 s.slots }, [Evt.save]⟩

/-- `reschedule_booking` of db_manager.py.  The moved payload is the
full copy `booking_data = slot_data.copy()`; the vacated slot is set to
the one-key dict `{"status": "available"}` (all other fields absent). -/
def reschedule_booking (booking_code new_date new_time : String) (s : Store) :
    EngineOut ModifyRes :=
  match findCode booking_code s.slots with
  | none => ⟨⟨"error", "Booking " ++ booking_code ++ " not found", none⟩, s, []⟩
  | some (od, ot, v) =>
    match dictGet new_date s.slots with
    | none => ⟨⟨"error", "No slots available on " ++ new_date, none⟩, s, []⟩
    | some times =>
      match dictGet new_time times with
      | none => ⟨⟨"error", "Invalid time slot " ++ new_time, none⟩, s, []⟩
      | some target =>
        if target.status ≠ "available" then
          ⟨⟨"error", "Slot at " ++ new_time ++ " on " ++ new_date ++ " is not available",
              none⟩, s, []⟩
        else
          let slots1 := setSlot od ot ⟨"available", none, none, none⟩ s.slots
          let slots2 := setSlot new_date new_time v slots1
          ⟨⟨"success",
              "Booking rescheduled from " ++ od ++ " " ++ ot ++ " to " ++ new_date ++ " " ++
                new_time,
              some ⟨booking_code, new_date, new_time, v.topic.getD "", v.user_alias.getD ""⟩⟩,
            { s with slots := slots2 }, [Evt.save]⟩

/-- Result dict of `cancel_waitlist`. -/
structure CancelWaitRes where
  status : String
  message : String
  entry : Option WaitlistEntry
deriving DecidableEq

/-- `cancel_waitlist` of db_manager.py: pop the first waitlist entry
whose `waitlist_id` matches, save once; otherwise error without saving. -/
def cancel_waitlist (waitlist_id : String) (s : Store) : EngineOut CancelWaitRes :=
  match popFirst (fun e => e.waitlist_id == waitlist_id) s.waitlist with
  | some (e, rest) =>
    ⟨⟨"success", "Waitlist entry " ++ waitlist_id ++ " cancelled", some e⟩,
      { s with waitlist := rest }, [Evt.save]⟩
  | none => ⟨⟨"error", "Waitlist entry " ++ waitlist_id ++ " not found", none⟩, s, []⟩

/-- One Booking Engine operation together with the codes its run draws
from `_generate_booking_code`. -/
inductive Op
  | book (newCode date_str time_str topic user_alias : String)
  | cancel (newCode booking_code : String)
  | waitlist (wid date_str time_str topic user_alias : String)
  | modify (booking_code : String) (new_topic new_alias : Option String)
  | reschedule (booking_code new_date new_time : String)
  | cancelWait (waitlist_id : String)
deriving DecidableEq

/-- The store left behind by one engine operation. -/
def applyOp (op : Op) (s : Store) : Store :=
  match op with
  | .book c d t top a => (book_slot c true d t top a s).store
  | .cancel nc c => (cancel_booking nc c s).store
  | .waitlist w d t top a => (add_to_waitlist w d t top a s).store
  | .modify c nt na => (modify_booking c nt na s).store
  | .reschedule c nd nt => (reschedule_booking c nd nt s).store
  | .cancelWait w => (cancel_waitlist w s).store

/-- The store reached by a sequence of engine operations. -/
def applyOps (ops : List Op) (s : Store) : Store :=
  ops.foldl (fun st op => applyOp op st) s

/-- All `(date, time, slot)` triples of the nested slots map, in
iteration order. -/
def flatten (sl : Slots) : List (String × String × Slot) :=
  sl.flatMap (fun p => p.2.map (fun q => (p.1, q.1, q.2)))

/-- The booking codes a single slot contributes to the booked-code
collection: one code when it is booked and carries a code. -/
def slotCodes (v : Slot) : List String :=
  if v.status = "booked" then
    match v.booking_id with
    | some c => [c]
    | none => []
  else []

/-- Booking codes of all currently-booked slots, in iteration order. -/
def bookedCodes (s : Store) : List String :=
  (flatten s.slots).flatMap (fun x => slotCodes x.2.2)

/-- Every `booking_id` present on any slot, regardless of status. -/
def usedCodes (s : Store) : List String :=
  (flatten s.slots).filterMap (fun x => x.2.2.booking_id)

/-- The per-slot invariant of the data model: `status == "booked"` iff
the booking code is set. -/
def slotInvB (v : Slot) : Bool :=
  (v.status == "booked") == v.booking_id.isSome

/-- The store-wide booked-iff-code invariant. -/
def storeInvB (s : Store) : Bool :=
  (flatten s.slots).all (fun x => slotInvB x.2.2)

/-- Well-formedness inherited from Python dicts: no duplicate date keys
and no duplicate time keys under any date. -/
def wfStore (s : Store) : Prop :=
  (s.slots.map Prod.fst).Nodup ∧ ∀ p ∈ s.slots, (p.2.map Prod.fst).Nodup

/-- A freshly provisioned slot of init_store.py. -/
def freshSlot : Slot := ⟨"available", none, none, none⟩

/-- The weekdays of Jan 7 - Jan 21, 2026, in the order generate_store_data
of init_store.py emits them. -/
def freshDates : List String :=
  ["2026-01-07", "2026-01-08", "2026-01-09", "2026-01-12", "2026-01-13",
   "2026-01-14", "2026-01-15", "2026-01-16", "2026-01-19", "2026-01-20", "2026-01-21"]

/-- The freshly provisioned store of generate_store_data: every weekday
in the window carries an available 14:00 and 15:00 slot; empty waitlist. -/
def freshStore : Store :=
  ⟨freshDates.map (fun d => (d, [("14:00", freshSlot), ("15:00", freshSlot)])), []⟩

/-- Freshness of the codes one operation draws: each drawn code is not
currently in use as the booking code of a booked slot. -/
def freshOp (s : Store) (op : Op) : Prop :=
  match op with
  | .book c _ _ _ _ => c ∉ bookedCodes s
  | .cancel nc _ => nc ∉ bookedCodes s
  | _ => True

/-- A trace whose generated codes are all fresh at the moment they are
drawn. -/
def FreshTrace : Store → List Op → Prop
  | _, [] => True
  | s, op :: ops => freshOp s op ∧ FreshTrace (applyOp op s) ops

instance (s : Store) : Decidable (wfStore s) := by
  unfold wfStore
  infer_instance

instance (s : Store) (op : Op) : Decidable (freshOp s op) := by
  cases op <;> (unfold freshOp; infer_instance)

/-- A function call requested by the model (name and argument dict,
arguments abstracted to strings). -/
structure FuncCall where
  name : String
  args : List (String × String)
deriving DecidableEq

/-- One part of a model reply; it may carry a function call and / or
text (`part.function_call`, `part.text`). -/
structure MPart where
  function_call : Option FuncCall
  text : Option String
deriving DecidableEq

/-- A model reply: the parts of the first candidate.  `[]` also models
a reply with no candidates or no parts. -/
abbrev Reply := List MPart

/-- Value returned by a tool invocation: the engine's list results, its
dict results (abstracted to string fields), or the error dict
`{"error": msg}` produced when execution raised. -/
inductive ToolVal
  | listVal (xs : List String)
  | dictVal (fields : List (String × String))
  | errDict (msg : String)
deriving DecidableEq

/-- The keys of the hand-maintained function map of
`LLMEngine._execute_function`. -/
def knownFunctions : List String :=
  ["check_availability", "book_slot", "cancel_slot", "add_to_waitlist",
   "get_all_available_dates", "find_booking_by_name_and_time"]

/-- `LLMEngine._execute_function`: an unknown name yields an error dict;
a raising tool (modelled as `Except.error`) is caught and converted to
the error dict; otherwise the tool's value is returned. -/
def execute_function (impl : String → List (String × String) → Except String ToolVal)
    (name : String) (args : List (String × String)) : ToolVal :=
  if name ∈ knownFunctions then
    match impl name args with
    | .ok r => r
    | .error e => .errDict e
  else .errDict ("Unknown function: " ++ name)

/-- An entry of `conversation_history`: a user text turn, a model turn,
or a turn of tool results. -/
inductive HItem
  | userText (s : String)
  | modelParts (ps : List MPart)
  | toolResults (rs : List (String × ToolVal))
deriving DecidableEq

/-- The presentation hints LLMEngine.chat can attach. -/
inductive UiHint
  | calendar_widget (date : Option String) (slots : List String)
  | booking_card (data : ToolVal)
  | manage_card (data : ToolVal)
  | topic_selector
deriving DecidableEq

/-- `isinstance(result, dict) and result.get("status") == "success"`. -/
def isSuccessDict : ToolVal → Bool
  | .dictVal fields => dictGet "status" fields == some "success"
  | _ => false

/-- The ui-hint update performed for one executed function call. -/
def hintFor (fc : FuncCall) (result : ToolVal) (current : Option UiHint) : Option UiHint :=
  if fc.name = "check_availability" then
    some (.calendar_widget (dictGet "date_str" fc.args)
      (match result with
       | .listVal xs => xs
       | _ => []))
  else if fc.name = "book_slot" ∧ isSuccessDict result then some (.booking_card result)
  else if fc.name = "find_booking_by_name_and_time" ∧ isSuccessDict result then
    some (.manage_card result)
  else current

/-- The heuristic `"topic" in final_response.lower() and "?" in
final_response` used for the topic-selector hint. -/
def topicQuestion (resp : String) : Bool :=
  (resp.toLower.splitOn "topic").length > 1 && resp.contains '?'

/-- The fixed fallback message returned when the loop exhausts its
10-iteration bound. -/
def fallbackMessage : String :=
  "I apologize, but I'm having trouble processing your request. Please try again."

/-- The message returned when the model yields no candidates or parts. -/
def noResponseMessage : String :=
  "I apologize, but I couldn't generate a response. Please try again."

/-- The default text when a terminal reply carries no text parts. -/
def defaultFinal : String := "I'm here to help you schedule an appointment."

/-- Return value of LLMEngine.chat, extended with the number of model
invocations performed (to state the liveness bound). -/
structure ChatOut where
  text : String
  ui_hint : Option UiHint
  modelCalls : Nat
deriving DecidableEq

/-- The `while iteration < max_iterations` loop of LLMEngine.chat.
`oracle` models `client.models.generate_content` as a function of the
conversation history; `impl` models the six engine tools, with raising
modelled as `Except.error`; `fuel` is the remaining iteration budget and
`calls` the number of model invocations made so far. -/
def chatLoop (oracle : List HItem → Reply)
    (impl : String → List (String × String) → Except String ToolVal) :
    Nat → List HItem → Option UiHint → Nat → ChatOut × List HItem
  | 0, hist, _, calls => (⟨fallbackMessage, none, calls⟩, hist)
  | fuel + 1, hist, uiHint, calls =>
    let parts := oracle hist
    if parts = [] then (⟨noResponseMessage, none, calls + 1⟩, hist)
    else
      let fcs := parts.filterMap (fun p => p.function_call)
      if fcs ≠ [] then
        let hist1 := hist ++ [HItem.modelParts parts]
        let execs := fcs.map (fun fc => (fc, execute_function impl fc.name fc.args))
        let uiHint1 := execs.foldl (fun cur pr => hintFor pr.1 pr.2 cur) uiHint
        let hist2 := hist1 ++ [HItem.toolResults (execs.map (fun pr => (pr.1.name, pr.2)))]
        chatLoop oracle impl fuel hist2 uiHint1 (calls + 1)
      else
        let textParts := parts.filterMap (fun p => p.text)
        let finalResponse :=
          if textParts = [] then defaultFinal else String.intercalate " " textParts
        let hint :=
          if uiHint.isNone && topicQuestion finalResponse then some UiHint.topic_selector
          else uiHint
        (⟨finalResponse, hint, calls + 1⟩,
          hist ++ [HItem.modelParts [⟨none, some finalResponse⟩]])

/-- `LLMEngine.chat`: append the user message to the history, then run
the bounded function-calling loop with `max_iterations = 10`. -/
def chat (oracle : List HItem → Reply)
    (impl : String → List (String × String) → Except String ToolVal)
    (user_message : String) (hist : List HItem) : ChatOut × List HItem :=
  chatLoop oracle impl 10 (hist ++ [HItem.userText user_message]) none 0

/-! Lemmas about the dict model. -/

theorem dictGet_dictSet_self {α : Type} (k : String) (v : α) (l : List (String × α)) :
    dictGet k (dictSet k v l) = some v := by
  induction l with
  | nil => simp [dictGet, dictSet]
  | cons a rest ih =>
    obtain ⟨k1, v1⟩ := a
    by_cases h : k1 = k
    · simp [dictGet, dictSet, h]
    · simp [dictGet, dictSet, h, ih]

theorem dictGet_dictSet_ne {α : Type} {k1 k : String} (v : α) (l : List (String × α))
    (h : k1 ≠ k) : dictGet k1 (dictSet k v l) = dictGet k1 l := by
  induction l with
  | nil =>
    simp only [dictSet, dictGet]
    rw [if_neg (fun hh => h hh.symm)]
  | cons a rest ih =>
    obtain ⟨k2, v2⟩ := a
    by_cases h2 : k2 = k
    · have hne : k2 ≠ k1 := by
        rw [h2]
        exact fun hh => h hh.symm
      rw [dictSet, if_pos h2, dictGet, if_neg hne, dictGet, if_neg hne]
    · rw [dictSet, if_neg h2, dictGet, dictGet]
      by_cases h3 : k2 = k1
      · rw [if_pos h3, if_pos h3]
      · rw [if_neg h3, if_neg h3, ih]

theorem mem_dictSet {α : Type} {p : String × α} {k : String} {v : α} {l : List (String × α)}
    (h : p ∈ dictSet k v l) : p = (k, v) ∨ p ∈ l := by
  induction l with
  | nil => simpa [dictSet] using h
  | cons a rest ih =>
    obtain ⟨k1, v1⟩ := a
    by_cases h1 : k1 = k
    · subst h1
      rcases (by simpa [dictSet] using h : p = (k1, v) ∨ p ∈ rest) with h2 | h2
      · exact Or.inl h2
      · exact Or.inr (List.mem_cons_of_mem _ h2)
    · rcases (by simpa [dictSet, h1] using h : p = (k1, v1) ∨ p ∈ dictSet k v rest) with h2 | h2
      · exact Or.inr (by simp [h2])
      · rcases ih h2 with h3 | h3
        · exact Or.inl h3
        · exact Or.inr (List.mem_cons_of_mem _ h3)

theorem dictGet_mem {α : Type} {k : String} {v : α} :
    ∀ {l : List (String × α)}, dictGet k l = some v → (k, v) ∈ l := by
  intro l
  induction l with
  | nil => simp [dictGet]
  | cons a rest ih =>
    obtain ⟨k1, v1⟩ := a
    by_cases h1 : k1 = k
    · subst h1
      intro h
      simp [dictGet] at h
      simp [h]
    · intro h
      rw [dictGet, if_neg h1] at h
      exact List.mem_cons_of_mem _ (ih h)

theorem dictGet_mem_keys {α : Type} {k : String} {v : α} {l : List (String × α)}
    (h : dictGet k l = some v) : k ∈ l.map Prod.fst := by
  exact List.mem_map.mpr ⟨(k, v), dictGet_mem h, rfl⟩

/-- Replacing the binding of a present key decomposes the list around
the first occurrence of that key. -/
theorem dictSet_decomp {α : Type} {k : String} {old : α} (v : α) :
    ∀ {l : List (String × α)}, dictGet k l = some old →
      ∃ l1 l2, l = l1 ++ (k, old) :: l2 ∧ dictSet k v l = l1 ++ (k, v) :: l2 := by
  intro l
  induction l with
  | nil => simp [dictGet]
  | cons a rest ih =>
    obtain ⟨k1, v1⟩ := a
    by_cases h1 : k1 = k
    · subst h1
      intro h
      simp [dictGet] at h
      subst h
      exact ⟨[], rest, by simp, by simp [dictSet]⟩
    · intro h
      rw [dictGet, if_neg h1] at h
      obtain ⟨l1, l2, hd, hs⟩ := ih h
      exact ⟨(k1, v1) :: l1, l2, by simp [hd], by simp [dictSet, h1, hs]⟩

/-! Lemmas about `flatten` and `setSlot`. -/

theorem flatten_nil : flatten [] = [] := rfl

theorem flatten_cons (d : String) (times : List (String × Slot)) (rest : Slots) :
    flatten ((d, times) :: rest) =
      times.map (fun q => (d, q.1, q.2)) ++ flatten rest := by
  simp [flatten]

theorem flatten_append (a b : Slots) : flatten (a ++ b) = flatten a ++ flatten b := by
  simp [flatten]

/-- Writing an existing `(date, time)` cell replaces exactly one triple
of the flattened store, at the first occurrence of that cell. -/
theorem flatten_setSlot {d t : String} {old : Slot} (v : Slot) {sl : Slots}
    {times : List (String × Slot)} (hd : dictGet d sl = some times)
    (ht : dictGet t times = some old) :
    ∃ l1 l2, flatten sl = l1 ++ (d, t, old) :: l2 ∧
      flatten (setSlot d t v sl) = l1 ++ (d, t, v) :: l2 := by
  obtain ⟨o1, o2, hod, hos⟩ := dictSet_decomp (dictSet t v times) hd
  obtain ⟨m1, m2, hmd, hms⟩ := dictSet_decomp v ht
  have hset : setSlot d t v sl = dictSet d (dictSet t v times) sl := by
    unfold setSlot
    rw [hd]
  refine ⟨flatten o1 ++ m1.map (fun q => (d, q.1, q.2)),
    m2.map (fun q => (d, q.1, q.2)) ++ flatten o2, ?_, ?_⟩
  · rw [hod, flatten_append, flatten_cons, hmd]
    simp
  · rw [hset, hos, flatten_append, flatten_cons, hms]
    simp

theorem getSlot_setSlot_self {d t : String} (v : Slot) {sl : Slots}
    {times : List (String × Slot)} (hd : dictGet d sl = some times) :
    getSlot d t (setSlot d t v sl) = some v := by
  have hset : setSlot d t v sl = dictSet d (dictSet t v times) sl := by
    unfold setSlot
    rw [hd]
  rw [getSlot, hset, dictGet_dictSet_self, Option.some_bind, dictGet_dictSet_self]

theorem getSlot_setSlot_other {d t d1 t1 : String} (v : Slot) (sl : Slots)
    (h : d1 ≠ d ∨ t1 ≠ t) : getSlot d1 t1 (setSlot d t v sl) = getSlot d1 t1 sl := by
  cases hd : dictGet d sl with
  | none =>
    have hset : setSlot d t v sl = sl := by
      unfold setSlot
      rw [hd]
    rw [hset]
  | some times =>
    have hset : setSlot d t v sl = dictSet d (dictSet t v times) sl := by
      unfold setSlot
      rw [hd]
    rw [hset]
    by_cases h1 : d1 = d
    · subst h1
      have ht1 : t1 ≠ t := h.resolve_left (fun hh => hh rfl)
      rw [getSlot, dictGet_dictSet_self, Option.some_bind,
        dictGet_dictSet_ne _ _ ht1, getSlot, hd, Option.some_bind]
    · rw [getSlot, dictGet_dictSet_ne _ _ h1, getSlot]

/-! Lemmas about the booking-code scans. -/

theorem findCodeIn_booking_id {c : String} :
    ∀ {times : List (String × Slot)} {t : String} {v : Slot},
      findCodeIn c times = some (t, v) → v.booking_id = some c := by
  intro times
  induction times with
  | nil =>
    intro t v h
    simp [findCodeIn] at h
  | cons a rest ih =>
    intro t v h
    obtain ⟨t1, v1⟩ := a
    by_cases h1 : v1.booking_id = some c
    · rw [findCodeIn, if_pos h1] at h
      simp only [Option.some.injEq, Prod.mk.injEq] at h
      obtain ⟨h2, h3⟩ := h
      subst h3
      exact h1
    · rw [findCodeIn, if_neg h1] at h
      exact ih h

theorem findCodeIn_get {c : String} :
    ∀ {times : List (String × Slot)} {t : String} {v : Slot},
      (times.map Prod.fst).Nodup → findCodeIn c times = some (t, v) →
      dictGet t times = some v := by
  intro times
  induction times with
  | nil =>
    intro t v _ h
    simp [findCodeIn] at h
  | cons a rest ih =>
    intro t v hnd h
    obtain ⟨t1, v1⟩ := a
    simp only [List.map_cons, List.nodup_cons] at hnd
    obtain ⟨hnotin, hnd2⟩ := hnd
    by_cases h1 : v1.booking_id = some c
    · rw [findCodeIn, if_pos h1] at h
      simp only [Option.some.injEq, Prod.mk.injEq] at h
      obtain ⟨h2, h3⟩ := h
      subst h2
      subst h3
      rw [dictGet, if_pos rfl]
    · rw [findCodeIn, if_neg h1] at h
      have hget := ih hnd2 h
      have htmem : t ∈ rest.map Prod.fst := dictGet_mem_keys hget
      have hne : t1 ≠ t := by
        intro hh
        rw [hh] at hnotin
        exact hnotin htmem
      rw [dictGet, if_neg hne]
      exact hget

/-- Under dict well-formedness the slot found by the nested scan is the
slot the subsequent `store["slots"][d][t] = ...` write addresses. -/
theorem findCode_get {c : String} :
    ∀ {sl : Slots} {d t : String} {v : Slot},
      (sl.map Prod.fst).Nodup → (∀ p ∈ sl, (p.2.map Prod.fst).Nodup) →
      findCode c sl = some (d, t, v) →
      ∃ times, dictGet d sl = some times ∧ dictGet t times = some v ∧
        v.booking_id = some c := by
  intro sl
  induction sl with
  | nil =>
    intro d t v _ _ h
    simp [findCode] at h
  | cons a rest ih =>
    intro d t v hnd hinner h
    obtain ⟨d1, times1⟩ := a
    simp only [List.map_cons, List.nodup_cons] at hnd
    obtain ⟨hd1notin, hndrest⟩ := hnd
    cases hin : findCodeIn c times1 with
    | some p =>
      obtain ⟨t1, v1⟩ := p
      simp only [findCode, hin, Option.some.injEq, Prod.mk.injEq] at h
      obtain ⟨h1, h2, h3⟩ := h
      refine ⟨times1, by rw [← h1, dictGet, if_pos rfl], ?_, by rw [← h3]; exact findCodeIn_booking_id hin⟩
      rw [← h2, ← h3]
      exact findCodeIn_get (hinner (d1, times1) (List.mem_cons_self _ _)) hin
    | none =>
      simp only [findCode, hin] at h
      obtain ⟨times, hdg, htg, hb⟩ :=
        ih hndrest (fun p hp => hinner p (List.mem_cons_of_mem _ hp)) h
      have hdmem : d ∈ rest.map Prod.fst := dictGet_mem_keys hdg
      have hne : d1 ≠ d := by
        intro hh
        rw [hh] at hd1notin
        exact hd1notin hdmem
      exact ⟨times, by rw [dictGet, if_neg hne]; exact hdg, htg, hb⟩

/-- The nested scan seen on the flattened store. -/
def findFlat (c : String) : List (String × String × Slot) → Option (String × String × Slot)
  | [] => none
  | x :: rest => if x.2.2.booking_id = some c then some x else findFlat c rest

theorem findFlat_append (c : String) (a b : List (String × String × Slot)) :
    findFlat c (a ++ b) =
      match findFlat c a with
      | some x => some x
      | none => findFlat c b := by
  induction a with
  | nil => simp [findFlat]
  | cons x rest ih =>
    by_cases h : x.2.2.booking_id = some c
    · simp [findFlat, h]
    · simp [findFlat, h, ih]

theorem findFlat_none {c : String} :
    ∀ {l : List (String × String × Slot)},
      (∀ x ∈ l, x.2.2.booking_id ≠ some c) → findFlat c l = none := by
  intro l
  induction l with
  | nil => intro _; rfl
  | cons x rest ih =>
    intro h
    rw [findFlat, if_neg (h x (List.mem_cons_self _ _))]
    exact ih (fun y hy => h y (List.mem_cons_of_mem _ hy))

theorem findFlat_mem {c : String} :
    ∀ {l : List (String × String × Slot)} {x},
      findFlat c l = some x → x ∈ l := by
  intro l
  induction l with
  | nil =>
    intro x h
    simp [findFlat] at h
  | cons y rest ih =>
    intro x h
    by_cases h1 : y.2.2.booking_id = some c
    · rw [findFlat, if_pos h1] at h
      simp only [Option.some.injEq] at h
      simp [h]
    · rw [findFlat, if_neg h1] at h
      exact List.mem_cons_of_mem _ (ih h)

theorem findCodeIn_map_eq (c d : String) (times : List (String × Slot)) :
    findFlat c (times.map (fun q => (d, q.1, q.2))) =
      (findCodeIn c times).map (fun q : String × Slot => (d, q.1, q.2)) := by
  induction times with
  | nil => simp [findFlat, findCodeIn]
  | cons a rest ih =>
    obtain ⟨t1, v1⟩ := a
    by_cases h : v1.booking_id = some c
    · simp [findFlat, findCodeIn, h]
    · simp [findFlat, findCodeIn, h, ih]

theorem findCode_eq_findFlat (c : String) :
    ∀ sl : Slots, findCode c sl = findFlat c (flatten sl) := by
  intro sl
  induction sl with
  | nil => rfl
  | cons a rest ih =>
    obtain ⟨d1, times1⟩ := a
    rw [flatten_cons, findFlat_append, findCodeIn_map_eq]
    cases hin : findCodeIn c times1 with
    | some p =>
      obtain ⟨t1, v1⟩ := p
      simp [findCode, hin]
    | none => simp [findCode, hin, ih]

theorem findCode_mem {c : String} {sl : Slots} {d t : String} {v : Slot}
    (h : findCode c sl = some (d, t, v)) : (d, t, v) ∈ flatten sl := by
  rw [findCode_eq_findFlat] at h
  exact findFlat_mem h

/-! Lemmas about `popFirst`. -/

theorem popFirst_eq_some {α : Type} {p : α → Bool} :
    ∀ {l : List α} {a : α} {rest : List α}, popFirst p l = some (a, rest) →
      ∃ l1 l2, l = l1 ++ a :: l2 ∧ rest = l1 ++ l2 ∧
        (∀ x ∈ l1, p x = false) ∧ p a = true := by
  intro l
  induction l with
  | nil =>
    intro a rest h
    simp [popFirst] at h
  | cons b tail ih =>
    intro a rest h
    cases hb : p b with
    | true =>
      simp only [popFirst, hb, if_true] at h
      simp only [Option.some.injEq, Prod.mk.injEq] at h
      obtain ⟨h1, h2⟩ := h
      subst h1
      subst h2
      exact ⟨[], tail, by simp, by simp, by simp, hb⟩
    | false =>
      simp only [popFirst, hb, if_false] at h
      cases hrec : popFirst p tail with
      | none =>
        rw [hrec] at h
        simp at h
      | some q =>
        obtain ⟨w, rest1⟩ := q
        rw [hrec] at h
        have h0 : some (w, b :: rest1) = some (a, rest) := h
        simp only [Option.some.injEq, Prod.mk.injEq] at h0
        obtain ⟨h1, h2⟩ := h0
        subst h1
        subst h2
        obtain ⟨l1, l2, hl, hr, hall, hp⟩ := ih hrec
        refine ⟨b :: l1, l2, by simp [hl], by simp [hr], ?_, hp⟩
        intro x hx
        rcases List.mem_cons.mp hx with h3 | h3
        · rw [h3]
          exact hb
        · exact hall x h3

theorem popFirst_none_of {α : Type} {p : α → Bool} :
    ∀ {l : List α}, (∀ x ∈ l, p x = false) → popFirst p l = none := by
  intro l
  induction l with
  | nil => intro _; rfl
  | cons b tail ih =>
    intro h
    have hb : p b = false := h b (List.mem_cons_self _ _)
    have ht := ih (fun x hx => h x (List.mem_cons_of_mem _ hx))
    simp [popFirst, hb, ht]

theorem popFirst_forall_of_none {α : Type} {p : α → Bool} :
    ∀ {l : List α}, popFirst p l = none → ∀ x ∈ l, p x = false := by
  intro l
  induction l with
  | nil =>
    intro _ x hx
    simp at hx
  | cons b tail ih =>
    intro h x hx
    cases hb : p b with
    | true => simp [popFirst, hb] at h
    | false =>
      simp only [popFirst, hb, if_false] at h
      cases hrec : popFirst p tail with
      | none =>
        rcases List.mem_cons.mp hx with h3 | h3
        · rw [h3]
          exact hb
        · exact ih hrec x h3
      | some q =>
        obtain ⟨w, rest1⟩ := q
        rw [hrec] at h
        simp at h

/-! Membership lemmas used for the booked-iff-code invariant. -/

theorem mem_flatten_setSlot {x : String × String × Slot} {d t : String} {v : Slot} {sl : Slots}
    (h : x ∈ flatten (setSlot d t v sl)) : x.2.2 = v ∨ x ∈ flatten sl := by
  cases hd : dictGet d sl with
  | none =>
    have hs : setSlot d t v sl = sl := by
      unfold setSlot
      rw [hd]
    rw [hs] at h
    exact Or.inr h
  | some times =>
    have hs : setSlot d t v sl = dictSet d (dictSet t v times) sl := by
      unfold setSlot
      rw [hd]
    rw [hs] at h
    unfold flatten at h ⊢
    obtain ⟨p, hpmem, hxin⟩ := List.mem_flatMap.mp h
    rcases mem_dictSet hpmem with hp | hp
    · subst hp
      simp only at hxin
      obtain ⟨q, hq, hxq⟩ := List.mem_map.mp hxin
      rcases mem_dictSet hq with hq2 | hq2
      · subst hq2
        exact Or.inl (by rw [← hxq])
      · refine Or.inr (List.mem_flatMap.mpr ⟨(d, times), dictGet_mem hd, ?_⟩)
        exact List.mem_map.mpr ⟨q, hq2, hxq⟩
    · exact Or.inr (List.mem_flatMap.mpr ⟨p, hp, hxin⟩)

/-- Writing a slot that satisfies the booked-iff-code discipline keeps
the whole store satisfying it. -/
theorem storeInvB_setSlot {s : Store} {w : List WaitlistEntry} {d t : String} {v : Slot}
    (h : storeInvB s = true) (hv : slotInvB v = true) :
    storeInvB ⟨setSlot d t v s.slots, w⟩ = true := by
  unfold storeInvB at h ⊢
  rw [List.all_eq_true] at h ⊢
  intro x hx
  rcases mem_flatten_setSlot hx with h2 | h2
  · rw [h2]
    exact hv
  · exact h x h2

theorem storeInvB_mem {s : Store} {x : String × String × Slot}
    (h : storeInvB s = true) (hx : x ∈ flatten s.slots) : slotInvB x.2.2 = true := by
  unfold storeInvB at h
  rw [List.all_eq_true] at h
  exact h x hx

theorem storeInvB_book {c : String} {cal : Bool} {d t top a : String} {s : Store}
    (h : storeInvB s = true) : storeInvB (book_slot c cal d t top a s).store = true := by
  unfold book_slot
  split
  · exact h
  · split
    · exact h
    · split
      · exact h
      · exact storeInvB_setSlot h (by simp [slotInvB])

theorem storeInvB_cancel {nc c : String} {s : Store}
    (h : storeInvB s = true) : storeInvB (cancel_booking nc c s).store = true := by
  unfold cancel_booking
  split
  · exact h
  · split
    · exact storeInvB_setSlot h (by simp [slotInvB])
    · exact storeInvB_setSlot h (by simp [slotInvB])

theorem storeInvB_waitlist {w d t top a : String} {s : Store}
    (h : storeInvB s = true) : storeInvB (add_to_waitlist w d t top a s).store = true := h

theorem storeInvB_modify {c : String} {ntop na : Option String} {s : Store}
    (h : storeInvB s = true) : storeInvB (modify_booking c ntop na s).store = true := by
  unfold modify_booking
  split
  · exact h
  next d t v hf =>
    have hv : slotInvB v = true := storeInvB_mem h (findCode_mem hf)
    refine storeInvB_setSlot h ?_
    simpa [slotInvB] using hv

theorem storeInvB_reschedule {c nd nt : String} {s : Store}
    (h : storeInvB s = true) : storeInvB (reschedule_booking c nd nt s).store = true := by
  unfold reschedule_booking
  split
  · exact h
  next od ot v hf =>
    have hv : slotInvB v = true := storeInvB_mem h (findCode_mem hf)
    split
    · exact h
    · split
      · exact h
      · split
        · exact h
        · have h1 : storeInvB ⟨setSlot od ot ⟨"available", none, none, none⟩ s.slots,
              s.waitlist⟩ = true :=
            storeInvB_setSlot h (by simp [slotInvB])
          exact storeInvB_setSlot h1 hv

theorem storeInvB_cancelWait {w : String} {s : Store}
    (h : storeInvB s = true) : storeInvB (cancel_waitlist w s).store = true := by
  unfold cancel_waitlist
  split
  · exact h
  · exact h

/-- C1.  After every Booking Engine operation (book_slot, cancel_booking,
add_to_waitlist, modify_booking, reschedule_booking, cancel_waitlist)
applied to a store in which it holds, every slot satisfies
`status == "booked"` iff its booking code is set (present and non-null),
i.e. `storeInvB` is preserved by every engine operation. -/
theorem claim_C1_booked_iff_code_preserved (op : Op) (s : Store)
    (h : storeInvB s = true) : storeInvB (applyOp op s) = true := by
  cases op with
  | book c d t top a => exact storeInvB_book h
  | cancel nc c => exact storeInvB_cancel h
  | waitlist w d t top a => exact storeInvB_waitlist h
  | modify c nt na => exact storeInvB_modify h
  | reschedule c nd nt => exact storeInvB_reschedule h
  | cancelWait w => exact storeInvB_cancelWait h

/-- Witness for C1: the invariant holds in the fresh store and is
preserved by a concrete booking. -/
theorem claim_C1_witness :
    storeInvB freshStore = true ∧
      storeInvB (applyOp (Op.book "NL-A742" "2026-01-07" "14:00" "KYC/Onboarding" "Alice")
        freshStore) = true :=
  ⟨by decide,
    claim_C1_booked_iff_code_preserved
      (Op.book "NL-A742" "2026-01-07" "14:00" "KYC/Onboarding" "Alice") freshStore (by decide)⟩

/-! Well-formedness (no duplicate dict keys) is preserved by the engine. -/

theorem mem_keys_dictSet {α : Type} {a k : String} {v : α} :
    ∀ {l : List (String × α)}, a ∈ (dictSet k v l).map Prod.fst →
      a ∈ l.map Prod.fst ∨ a = k := by
  intro l
  induction l with
  | nil =>
    intro h
    simp [dictSet] at h
    exact Or.inr h
  | cons b rest ih =>
    obtain ⟨k1, v1⟩ := b
    intro h
    by_cases h1 : k1 = k
    · rw [dictSet, if_pos h1] at h
      simp only [List.map_cons, List.mem_cons] at h ⊢
      rcases h with h2 | h2
      · exact Or.inl (Or.inl h2)
      · exact Or.inl (Or.inr h2)
    · rw [dictSet, if_neg h1] at h
      simp only [List.map_cons, List.mem_cons] at h ⊢
      rcases h with h2 | h2
      · exact Or.inl (Or.inl h2)
      · rcases ih h2 with h3 | h3
        · exact Or.inl (Or.inr h3)
        · exact Or.inr h3

theorem keys_nodup_dictSet {α : Type} {k : String} {v : α} :
    ∀ {l : List (String × α)}, (l.map Prod.fst).Nodup →
      ((dictSet k v l).map Prod.fst).Nodup := by
  intro l
  induction l with
  | nil =>
    intro _
    simp [dictSet]
  | cons b rest ih =>
    obtain ⟨k1, v1⟩ := b
    intro h
    simp only [List.map_cons, List.nodup_cons] at h
    obtain ⟨hnotin, hnd⟩ := h
    by_cases h1 : k1 = k
    · rw [dictSet, if_pos h1]
      simp only [List.map_cons, List.nodup_cons]
      exact ⟨hnotin, hnd⟩
    · rw [dictSet, if_neg h1]
      simp only [List.map_cons, List.nodup_cons]
      refine ⟨?_, ih hnd⟩
      intro hmem
      rcases mem_keys_dictSet hmem with h2 | h2
      · exact hnotin h2
      · exact h1 h2

theorem wf_setSlot {s : Store} {w : List WaitlistEntry} {d t : String} {v : Slot}
    (h : wfStore s) : wfStore ⟨setSlot d t v s.slots, w⟩ := by
  obtain ⟨hkeys, hinner⟩ := h
  cases hd : dictGet d s.slots with
  | none =>
    have hs : setSlot d t v s.slots = s.slots := by
      unfold setSlot
      rw [hd]
    rw [wfStore, hs]
    exact ⟨hkeys, hinner⟩
  | some times =>
    have hs : setSlot d t v s.slots = dictSet d (dictSet t v times) s.slots := by
      unfold setSlot
      rw [hd]
    rw [wfStore, hs]
    refine ⟨keys_nodup_dictSet hkeys, ?_⟩
    intro p hp
    rcases mem_dictSet hp with h1 | h1
    · rw [h1]
      exact keys_nodup_dictSet (hinner (d, times) (dictGet_mem hd))
    · exact hinner p h1

theorem wf_book {c : String} {cal : Bool} {d t top a : String} {s : Store}
    (h : wfStore s) : wfStore (book_slot c cal d t top a s).store := by
  unfold book_slot
  split
  · exact h
  · split
    · exact h
    · split
      · exact h
      · exact wf_setSlot h

theorem wf_cancel {nc c : String} {s : Store}
    (h : wfStore s) : wfStore (cancel_booking nc c s).store := by
  unfold cancel_booking
  split
  · exact h
  · split
    · exact wf_setSlot h
    · exact wf_setSlot h

theorem wf_waitlist {w d t top a : String} {s : Store}
    (h : wfStore s) : wfStore (add_to_waitlist w d t top a s).store := h

theorem wf_modify {c : String} {ntop na : Option String} {s : Store}
    (h : wfStore s) : wfStore (modify_booking c ntop na s).store := by
  unfold modify_booking
  split
  · exact h
  · exact wf_setSlot h

theorem wf_reschedule {c nd nt : String} {s : Store}
    (h : wfStore s) : wfStore (reschedule_booking c nd nt s).store := by
  unfold reschedule_booking
  split
  · exact h
  next od ot v hf =>
    split
    · exact h
    · split
      · exact h
      · split
        · exact h
        · exact wf_setSlot (w := s.waitlist)
            (s := ⟨setSlot od ot ⟨"available", none, none, none⟩ s.slots, s.waitlist⟩)
            (wf_setSlot h)

theorem wf_cancelWait {w : String} {s : Store}
    (h : wfStore s) : wfStore (cancel_waitlist w s).store := by
  unfold cancel_waitlist
  split
  · exact h
  · exact h

theorem wf_applyOp (op : Op) {s : Store} (h : wfStore s) : wfStore (applyOp op s) := by
  cases op with
  | book c d t top a => exact wf_book h
  | cancel nc c => exact wf_cancel h
  | waitlist w d t top a => exact wf_waitlist h
  | modify c nt na => exact wf_modify h
  | reschedule c nd nt => exact wf_reschedule h
  | cancelWait w => exact wf_cancelWait h

/-! Booked-code bookkeeping: a slot write changes the booked-code list
by replacing the contribution of the overwritten slot. -/

theorem bookedCodes_decomp {s : Store} {d t : String} {old : Slot}
    {times : List (String × Slot)} (v : Slot) (w : List WaitlistEntry)
    (hd : dictGet d s.slots = some times) (ht : dictGet t times = some old) :
    ∃ A B, bookedCodes s = A ++ (slotCodes old ++ B) ∧
      bookedCodes ⟨setSlot d t v s.slots, w⟩ = A ++ (slotCodes v ++ B) := by
  obtain ⟨l1, l2, h1, h2⟩ := flatten_setSlot v hd ht
  refine ⟨l1.flatMap (fun x => slotCodes x.2.2), l2.flatMap (fun x => slotCodes x.2.2), ?_, ?_⟩
  · rw [bookedCodes, h1]
    simp
  · rw [bookedCodes]
    show (flatten (setSlot d t v s.slots)).flatMap (fun x => slotCodes x.2.2) = _
    rw [h2]
    simp

theorem nodup_append_middle {A B mid : List String}
    (h : (A ++ (mid ++ B)).Nodup) : (A ++ B).Nodup := by
  refine List.Nodup.sublist ?_ h
  exact List.Sublist.append_left (List.sublist_append_right mid B) A

theorem nodup_insert_middle {A B : List String} {c : String}
    (h : (A ++ B).Nodup) (hc : c ∉ A ++ B) : (A ++ ([c] ++ B)).Nodup := by
  have : (c :: (A ++ B)).Nodup := List.nodup_cons.mpr ⟨hc, h⟩
  exact List.nodup_middle.mpr this

theorem not_mem_of_nodup_middle {A B : List String} {c : String}
    (h : (A ++ ([c] ++ B)).Nodup) : c ∉ A ++ B := by
  have := List.nodup_middle.mp h
  exact (List.nodup_cons.mp this).1

/-- The written cell of `setSlot` can be read back in the updated store,
and every cell is either the original one or the written value. -/
theorem setSlot_cell_get {sl : Slots} {od ot : String} {timesO : List (String × Slot)}
    {v0 : Slot} (hdo : dictGet od sl = some timesO) (nd nt : String)
    {times : List (String × Slot)} {target : Slot}
    (hd2 : dictGet nd sl = some times) (ht2 : dictGet nt times = some target) :
    ∃ times1 tgt1, dictGet nd (setSlot od ot v0 sl) = some times1 ∧
      dictGet nt times1 = some tgt1 ∧ (tgt1 = target ∨ tgt1 = v0) := by
  have hset : setSlot od ot v0 sl = dictSet od (dictSet ot v0 timesO) sl := by
    unfold setSlot
    rw [hdo]
  by_cases h1 : nd = od
  · subst h1
    rw [hd2] at hdo
    have htimes : timesO = times := by
      injection hdo with hh
      exact hh.symm
    subst htimes
    refine ⟨dictSet ot v0 timesO, ?_⟩
    by_cases h2 : nt = ot
    · subst h2
      exact ⟨v0, by rw [hset, dictGet_dictSet_self], by rw [dictGet_dictSet_self], Or.inr rfl⟩
    · exact ⟨target, by rw [hset, dictGet_dictSet_self],
        by rw [dictGet_dictSet_ne _ _ h2]; exact ht2, Or.inl rfl⟩
  · refine ⟨times, target, ?_, ht2, Or.inl rfl⟩
    rw [hset, dictGet_dictSet_ne _ _ h1]
    exact hd2

theorem nodup_bookedCodes_book {c : String} {cal : Bool} {d t top a : String} {s : Store}
    (hnd : (bookedCodes s).Nodup) (hfresh : c ∉ bookedCodes s) :
    (bookedCodes (book_slot c cal d t top a s).store).Nodup := by
  unfold book_slot
  split
  · exact hnd
  next times hd =>
    split
    · exact hnd
    next slot ht =>
      split
      · exact hnd
      next hs =>
        have hstat : slot.status = "available" := by
          by_contra hcon
          exact hs hcon
        obtain ⟨A, B, h1, h2⟩ :=
          bookedCodes_decomp ⟨"booked", some c, some top, some a⟩ s.waitlist hd ht
        have hold : slotCodes slot = [] := by
          simp [slotCodes, hstat]
        rw [hold] at h1
        simp only [List.nil_append] at h1
        have hnew : slotCodes ⟨"booked", some c, some top, some a⟩ = [c] := by
          simp [slotCodes]
        rw [h2, hnew]
        rw [h1] at hnd hfresh
        exact nodup_insert_middle hnd hfresh

theorem nodup_bookedCodes_cancel {nc c : String} {s : Store}
    (hwf : wfStore s) (hnd : (bookedCodes s).Nodup) (hfresh : nc ∉ bookedCodes s) :
    (bookedCodes (cancel_booking nc c s).store).Nodup := by
  unfold cancel_booking
  split
  · exact hnd
  next d t v hf =>
    obtain ⟨times, hd, ht, hb⟩ := findCode_get hwf.1 hwf.2 hf
    split
    next w rest hp =>
      obtain ⟨A, B, h1, h2⟩ :=
        bookedCodes_decomp ⟨"booked", some nc, some w.topic, some w.user_alias⟩ rest hd ht
      have hnew : slotCodes ⟨"booked", some nc, some w.topic, some w.user_alias⟩ = [nc] := by
        simp [slotCodes]
      rw [h2, hnew]
      rw [h1] at hnd hfresh
      refine nodup_insert_middle (nodup_append_middle hnd) ?_
      intro hmem
      refine hfresh ?_
      rcases List.mem_append.mp hmem with hm | hm
      · exact List.mem_append.mpr (Or.inl hm)
      · exact List.mem_append.mpr (Or.inr (List.mem_append.mpr (Or.inr hm)))
    next hp =>
      obtain ⟨A, B, h1, h2⟩ :=
        bookedCodes_decomp ⟨"available", none, none, none⟩ s.waitlist hd ht
      have hnew : slotCodes ⟨"available", none, none, none⟩ = [] := by
        simp [slotCodes]
      rw [h2, hnew]
      simp only [List.nil_append]
      rw [h1] at hnd
      exact nodup_append_middle hnd

theorem nodup_bookedCodes_modify {c : String} {ntop na : Option String} {s : Store}
    (hwf : wfStore s) (hnd : (bookedCodes s).Nodup) :
    (bookedCodes (modify_booking c ntop na s).store).Nodup := by
  unfold modify_booking
  split
  · exact hnd
  next d t v hf =>
    obtain ⟨times, hd, ht, hb⟩ := findCode_get hwf.1 hwf.2 hf
    obtain ⟨A, B, h1, h2⟩ :=
      bookedCodes_decomp
        { v with topic := if truthy ntop then ntop else v.topic,
                 user_alias := if truthy na then na else v.user_alias } s.waitlist hd ht
    have hsame :
        slotCodes { v with topic := if truthy ntop then ntop else v.topic,
                           user_alias := if truthy na then na else v.user_alias } =
          slotCodes v := rfl
    rw [h2, hsame, ← h1]
    exact hnd

theorem nodup_bookedCodes_reschedule {c nd nt : String} {s : Store}
    (hwf : wfStore s) (hnd : (bookedCodes s).Nodup) :
    (bookedCodes (reschedule_booking c nd nt s).store).Nodup := by
  unfold reschedule_booking
  split
  · exact hnd
  next od ot v hf =>
    obtain ⟨timesO, hdo, hto, hb⟩ := findCode_get hwf.1 hwf.2 hf
    split
    · exact hnd
    next times hd2 =>
      split
      · exact hnd
      next target ht2 =>
        split
        · exact hnd
        next hs =>
          have hstat : target.status = "available" := by
            by_contra hcon
            exact hs hcon
          obtain ⟨A, B, h1, h2⟩ :=
            bookedCodes_decomp ⟨"available", none, none, none⟩ s.waitlist hdo hto
          have havail : slotCodes (⟨"available", none, none, none⟩ : Slot) = [] := by
            simp [slotCodes]
          rw [havail] at h2
          simp only [List.nil_append] at h2
          obtain ⟨times1, tgt1, hd3, ht3, htgt⟩ := setSlot_cell_get hdo nd nt hd2 ht2
          have htgt0 : slotCodes tgt1 = [] := by
            rcases htgt with h3 | h3
            · rw [h3]
              simp [slotCodes, hstat]
            · rw [h3]
              exact havail
          have hd3s : dictGet nd
              (⟨setSlot od ot ⟨"available", none, none, none⟩ s.slots, s.waitlist⟩ :
                Store).slots = some times1 := hd3
          obtain ⟨A1, B1, h4, h5⟩ := bookedCodes_decomp v s.waitlist hd3s ht3
          rw [htgt0] at h4
          simp only [List.nil_append] at h4
          have hset1 : (bookedCodes (⟨setSlot od ot ⟨"available", none, none, none⟩ s.slots,
              s.waitlist⟩ : Store)) = A ++ B := h2
          rw [hset1] at h4
          rw [h1] at hnd
          have hndAB : (A ++ B).Nodup := nodup_append_middle hnd
          rw [h4] at hndAB
          show (bookedCodes ⟨setSlot nd nt v
            (setSlot od ot ⟨"available", none, none, none⟩ s.slots), s.waitlist⟩).Nodup
          rw [h5]
          by_cases hvb : v.status = "booked"
          · have hvc : slotCodes v = [c] := by
              simp [slotCodes, hvb, hb]
            rw [hvc]
            rw [hvc] at hnd h1
            have hcnot : c ∉ A ++ B := not_mem_of_nodup_middle (h1 ▸ hnd)
            rw [h4] at hcnot
            exact nodup_insert_middle hndAB hcnot
          · have hvc : slotCodes v = [] := by
              simp [slotCodes, hvb]
            rw [hvc]
            simp only [List.nil_append]
            exact hndAB

theorem nodup_bookedCodes_applyOp (op : Op) {s : Store}
    (hwf : wfStore s) (hnd : (bookedCodes s).Nodup) (hfresh : freshOp s op) :
    (bookedCodes (applyOp op s)).Nodup := by
  cases op with
  | book c d t top a => exact nodup_bookedCodes_book hnd hfresh
  | cancel nc c => exact nodup_bookedCodes_cancel hwf hnd hfresh
  | waitlist w d t top a => exact hnd
  | modify c nt na => exact nodup_bookedCodes_modify hwf hnd
  | reschedule c ndd ntt => exact nodup_bookedCodes_reschedule hwf hnd
  | cancelWait w =>
    show (bookedCodes (cancel_waitlist w s).store).Nodup
    have : bookedCodes (cancel_waitlist w s).store = bookedCodes s := by
      unfold cancel_waitlist
      split
      · rfl
      · rfl
    rw [this]
    exact hnd

theorem nodup_bookedCodes_applyOps :
    ∀ (ops : List Op) (s : Store), wfStore s → (bookedCodes s).Nodup →
      FreshTrace s ops → (bookedCodes (applyOps ops s)).Nodup := by
  intro ops
  induction ops with
  | nil =>
    intro s _ hnd _
    exact hnd
  | cons op rest ih =>
    intro s hwf hnd h
    obtain ⟨hop, htr⟩ := h
    exact ih (applyOp op s) (wf_applyOp op hwf)
      (nodup_bookedCodes_applyOp op hwf hnd hop) htr

/-- C3 counterexample.  The claim states that in every store reachable
from the freshly provisioned store the booking codes of booked slots are
pairwise distinct.  `_generate_booking_code` draws codes uniformly at
random without checking existing codes, so a run in which it returns
"NL-AAAA" twice is possible; after booking two slots under that draw the
booked codes are not pairwise distinct. -/
theorem claim_C3_counterexample :
    ¬ (bookedCodes (applyOps
      [Op.book "NL-AAAA" "2026-01-07" "14:00" "KYC/Onboarding" "Alice",
       Op.book "NL-AAAA" "2026-01-07" "15:00" "SIP/Mandates" "Bob"] freshStore)).Nodup := by
  decide

/-- C3 amended.  In every store reachable from the freshly provisioned
store by a sequence of Booking Engine operations, the booking codes of
all currently-booked slots are pairwise distinct, provided every code
drawn from the generator along the trace is fresh (not in use as the
booking code of a currently-booked slot at the moment it is drawn). -/
theorem claim_C3_codes_distinct_of_fresh (ops : List Op)
    (h : FreshTrace freshStore ops) :
    (bookedCodes (applyOps ops freshStore)).Nodup := by
  refine nodup_bookedCodes_applyOps ops freshStore ?_ ?_ h
  · decide
  · decide

/-- Witness for the amended C3 on a concrete two-step fresh trace. -/
theorem claim_C3_witness :
    FreshTrace freshStore
      [Op.book "NL-A742" "2026-01-07" "14:00" "KYC/Onboarding" "Alice",
       Op.book "NL-X99Z" "2026-01-07" "15:00" "SIP/Mandates" "Bob"] ∧
    (bookedCodes (applyOps
      [Op.book "NL-A742" "2026-01-07" "14:00" "KYC/Onboarding" "Alice",
       Op.book "NL-X99Z" "2026-01-07" "15:00" "SIP/Mandates" "Bob"] freshStore)).Nodup := by
  have htr : FreshTrace freshStore
      [Op.book "NL-A742" "2026-01-07" "14:00" "KYC/Onboarding" "Alice",
       Op.book "NL-X99Z" "2026-01-07" "15:00" "SIP/Mandates" "Bob"] :=
    ⟨by decide, by decide, trivial⟩
  exact ⟨htr, claim_C3_codes_distinct_of_fresh _ htr⟩

/-- C4.  `book_slot` returns the date-not-found error when the date is
absent, the invalid-time error when the time is absent from that date's
slot set, and the slot-taken error when the slot's status is not
available; in each error case no save event is emitted and the store is
returned entirely unchanged (in particular an existing occupant of an
already-booked slot keeps its code, topic and alias, since the whole
store is unchanged). -/
theorem claim_C4_book_slot_errors (newCode : String) (cal : Bool)
    (d t top a : String) (s : Store) :
    (dictGet d s.slots = none →
      book_slot newCode cal d t top a s =
        ⟨bookErr ("No slots available for date " ++ d), s, []⟩) ∧
    (∀ times, dictGet d s.slots = some times → dictGet t times = none →
      book_slot newCode cal d t top a s =
        ⟨bookErr ("Invalid time slot " ++ t ++ ". Available slots are 14:00 and 15:00."),
          s, []⟩) ∧
    (∀ times slot, dictGet d s.slots = some times → dictGet t times = some slot →
      slot.status ≠ "available" →
      book_slot newCode cal d t top a s =
        ⟨bookErr ("Slot at " ++ t ++ " on " ++ d ++ " is already booked"), s, []⟩) := by
  refine ⟨?_, ?_, ?_⟩
  · intro h
    unfold book_slot
    rw [h]
  · intro times h1 h2
    unfold book_slot
    rw [h1]
    show (match dictGet t times with
      | none => _
      | some slot => _) = _
    rw [h2]
  · intro times slot h1 h2 h3
    unfold book_slot
    rw [h1]
    show (match dictGet t times with
      | none => _
      | some slot => _) = _
    rw [h2]
    show (if slot.status ≠ "available" then _ else _) = _
    rw [if_pos h3]

/-- A store with one already-booked slot, used as witness input. -/
def exStoreTaken : Store :=
  ⟨[("2026-01-07",
      [("14:00", ⟨"booked", some "NL-AAAA", some "KYC/Onboarding", some "Alice"⟩),
       ("15:00", freshSlot)])], []⟩

/-- Witness for C4: the three error cases at concrete inputs. -/
theorem claim_C4_witness :
    book_slot "NL-A742" true "2026-01-01" "14:00" "Withdrawals" "Bob" freshStore =
      ⟨bookErr ("No slots available for date 2026-01-01"), freshStore, []⟩ ∧
    book_slot "NL-A742" true "2026-01-07" "16:00" "Withdrawals" "Bob" freshStore =
      ⟨bookErr ("Invalid time slot 16:00. Available slots are 14:00 and 15:00."),
        freshStore, []⟩ ∧
    book_slot "NL-A742" true "2026-01-07" "14:00" "Withdrawals" "Bob" exStoreTaken =
      ⟨bookErr ("Slot at 14:00 on 2026-01-07 is already booked"), exStoreTaken, []⟩ :=
  ⟨(claim_C4_book_slot_errors "NL-A742" true "2026-01-01" "14:00" "Withdrawals" "Bob"
      freshStore).1 (by decide),
    (claim_C4_book_slot_errors "NL-A742" true "2026-01-07" "16:00" "Withdrawals" "Bob"
      freshStore).2.1 [("14:00", freshSlot), ("15:00", freshSlot)] (by decide) (by decide),
    (claim_C4_book_slot_errors "NL-A742" true "2026-01-07" "14:00" "Withdrawals" "Bob"
      exStoreTaken).2.2
      [("14:00", ⟨"booked", some "NL-AAAA", some "KYC/Onboarding", some "Alice"⟩),
       ("15:00", freshSlot)]
      ⟨"booked", some "NL-AAAA", some "KYC/Onboarding", some "Alice"⟩
      (by decide) (by decide) (by decide)⟩

/-- C10.  `cancel_waitlist` removes exactly the earliest waitlist entry
whose `waitlist_id` matches and persists once, leaving the slots map and
all other waitlist entries (in their original order) unchanged; when no
entry matches it returns the tagged error result and emits no save. -/
theorem claim_C10_cancel_waitlist (wid : String) (s : Store) :
    ((∃ e ∈ s.waitlist, e.waitlist_id = wid) →
      ∃ e l1 l2, s.waitlist = l1 ++ e :: l2 ∧ e.waitlist_id = wid ∧
        (∀ x ∈ l1, x.waitlist_id ≠ wid) ∧
        cancel_waitlist wid s =
          ⟨⟨"success", "Waitlist entry " ++ wid ++ " cancelled", some e⟩,
            ⟨s.slots, l1 ++ l2⟩, [Evt.save]⟩) ∧
    ((∀ e ∈ s.waitlist, e.waitlist_id ≠ wid) →
      cancel_waitlist wid s =
        ⟨⟨"error", "Waitlist entry " ++ wid ++ " not found", none⟩, s, []⟩) := by
  constructor
  · intro hex
    cases hp : popFirst (fun e => e.waitlist_id == wid) s.waitlist with
    | none =>
      obtain ⟨e, hmem, heq⟩ := hex
      have := popFirst_forall_of_none hp e hmem
      rw [heq] at this
      simp at this
    | some q =>
      obtain ⟨e, rest⟩ := q
      obtain ⟨l1, l2, hl, hr, hall, hpe⟩ := popFirst_eq_some hp
      refine ⟨e, l1, l2, hl, by simpa using hpe, ?_, ?_⟩
      · intro x hx
        have := hall x hx
        simpa using this
      · unfold cancel_waitlist
        rw [hp, hr]
  · intro hna
    have hnone : popFirst (fun e => e.waitlist_id == wid) s.waitlist = none := by
      refine popFirst_none_of ?_
      intro x hx
      simpa using hna x hx
    unfold cancel_waitlist
    rw [hnone]

/-- A store with one waitlist entry, used as witness input. -/
def exWaitStore : Store :=
  ⟨exStoreTaken.slots, [⟨"2026-01-07", "14:00", "SIP/Mandates", "Bob", "NL-WWWW"⟩]⟩

/-- Witness for C10: a matching id is removed with one save; a missing
id leaves the store untouched with no save. -/
theorem claim_C10_witness :
    (∃ e l1 l2, exWaitStore.waitlist = l1 ++ e :: l2 ∧ e.waitlist_id = "NL-WWWW" ∧
      (∀ x ∈ l1, x.waitlist_id ≠ "NL-WWWW") ∧
      cancel_waitlist "NL-WWWW" exWaitStore =
        ⟨⟨"success", "Waitlist entry " ++ "NL-WWWW" ++ " cancelled",
            some ⟨"2026-01-07", "14:00", "SIP/Mandates", "Bob", "NL-WWWW"⟩⟩,
          ⟨exWaitStore.slots, l1 ++ l2⟩, [Evt.save]⟩) ∧
    cancel_waitlist "NL-ZZZZ" exWaitStore =
      ⟨⟨"error", "Waitlist entry " ++ "NL-ZZZZ" ++ " not found", none⟩, exWaitStore, []⟩ := by
  constructor
  · obtain ⟨e, l1, l2, hl, hid, hall, heq⟩ :=
      (claim_C10_cancel_waitlist "NL-WWWW" exWaitStore).1 (by decide)
    have he : e = ⟨"2026-01-07", "14:00", "SIP/Mandates", "Bob", "NL-WWWW"⟩ := by
      have hmem : e ∈ exWaitStore.waitlist := by
        rw [hl]
        simp
      simpa [exWaitStore] using hmem
    subst he
    exact ⟨_, l1, l2, hl, hid, hall, heq⟩
  · exact (claim_C10_cancel_waitlist "NL-ZZZZ" exWaitStore).2 (by decide)

/-- C9.  `modify_booking` updates a field only when the supplied value
is truthy (`None` and the empty string are falsy, so a field can never
be cleared or set to the empty string); the matched slot keeps its
status, booking code and `(date, time)` position, every other slot is
unchanged, the waitlist is unchanged, and exactly one save is emitted. -/
theorem claim_C9_modify_truthy_updates (c : String) (ntop na : Option String) (s : Store)
    (hwf : wfStore s) {d t : String} {v : Slot}
    (hf : findCode c s.slots = some (d, t, v)) :
    truthy none = false ∧ truthy (some "") = false ∧
    (modify_booking c ntop na s).res.status = "success" ∧
    getSlot d t (modify_booking c ntop na s).store.slots =
      some ⟨v.status, v.booking_id,
            if truthy ntop then ntop else v.topic,
            if truthy na then na else v.user_alias⟩ ∧
    (∀ d1 t1, ¬(d1 = d ∧ t1 = t) →
      getSlot d1 t1 (modify_booking c ntop na s).store.slots = getSlot d1 t1 s.slots) ∧
    (modify_booking c ntop na s).store.waitlist = s.waitlist ∧
    (modify_booking c ntop na s).events = [Evt.save] := by
  obtain ⟨times, hd, ht, hb⟩ := findCode_get hwf.1 hwf.2 hf
  have hout : modify_booking c ntop na s =
      ⟨⟨"success", "Booking updated successfully",
          some ⟨c, d, t,
            (if truthy ntop then ntop else v.topic).getD "",
            (if truthy na then na else v.user_alias).getD ""⟩⟩,
        ⟨setSlot d t { v with topic := if truthy ntop then ntop else v.topic,
                              user_alias := if truthy na then na else v.user_alias } s.slots,
          s.waitlist⟩, [Evt.save]⟩ := by
    unfold modify_booking
    rw [hf]
  refine ⟨rfl, rfl, ?_, ?_, ?_, ?_, ?_⟩
  · rw [hout]
  · rw [hout]
    exact getSlot_setSlot_self _ hd
  · intro d1 t1 hne
    rw [hout]
    refine getSlot_setSlot_other _ _ ?_
    by_cases h1 : d1 = d
    · exact Or.inr (fun h2 => hne ⟨h1, h2⟩)
    · exact Or.inl h1
  · rw [hout]
  · rw [hout]

/-- Witness for C9: modifying the topic of a concrete booking with a
truthy topic and a falsy (empty-string) alias. -/
theorem claim_C9_witness :
    (modify_booking "NL-AAAA" (some "Withdrawals") (some "") exStoreTaken).res.status =
      "success" ∧
    getSlot "2026-01-07" "14:00"
        (modify_booking "NL-AAAA" (some "Withdrawals") (some "") exStoreTaken).store.slots =
      some ⟨"booked", some "NL-AAAA", some "Withdrawals", some "Alice"⟩ ∧
    (modify_booking "NL-AAAA" (some "Withdrawals") (some "") exStoreTaken).store.waitlist =
      exStoreTaken.waitlist := by
  have h := claim_C9_modify_truthy_updates "NL-AAAA" (some "Withdrawals") (some "")
    exStoreTaken (by decide)
    (d := "2026-01-07") (t := "14:00")
    (v := ⟨"booked", some "NL-AAAA", some "KYC/Onboarding", some "Alice"⟩) (by decide)
  exact ⟨h.2.2.1, h.2.2.2.1, h.2.2.2.2.2.1⟩

/-- A store in which two slots carry the same booking code (reachable,
since the code generator does not check for collisions) and the
waitlist holds an entry for the second of them. -/
def exDupStore : Store :=
  ⟨[("2026-01-07",
      [("14:00", ⟨"booked", some "NL-AAAA", some "KYC/Onboarding", some "Alice"⟩),
       ("15:00", ⟨"booked", some "NL-AAAA", some "Withdrawals", some "Bob"⟩)])],
    [⟨"2026-01-07", "15:00", "SIP/Mandates", "Carol", "NL-WWWW"⟩]⟩

/-- C2 counterexample.  In `exDupStore` the slot (2026-01-07, 15:00) is
booked with code NL-AAAA and the waitlist holds an entry for exactly
that slot, so the claim asserts that `cancel_booking "NL-AAAA"`
promotes Carol into that slot under the fresh code and removes her
entry.  Instead the scan finds the 14:00 slot (which carries the same
code) first: the cancellation succeeds, but the 15:00 slot still holds
Bob's booking and the waitlist is unchanged. -/
theorem claim_C2_counterexample :
    getSlot "2026-01-07" "15:00" exDupStore.slots =
      some ⟨"booked", some "NL-AAAA", some "Withdrawals", some "Bob"⟩ ∧
    (∃ e ∈ exDupStore.waitlist, e.date = "2026-01-07" ∧ e.time = "15:00") ∧
    (cancel_booking "NL-BBBB" "NL-AAAA" exDupStore).res.status = "success" ∧
    getSlot "2026-01-07" "15:00"
        (cancel_booking "NL-BBBB" "NL-AAAA" exDupStore).store.slots =
      some ⟨"booked", some "NL-AAAA", some "Withdrawals", some "Bob"⟩ ∧
    (cancel_booking "NL-BBBB" "NL-AAAA" exDupStore).store.waitlist =
      exDupStore.waitlist := by
  decide

/-- C2 amended.  If `(d, t)` is the first slot in store iteration order
whose booking code is `c` (in particular whenever `c` is the code of no
other slot), the slot is booked, and the waitlist holds at least one
entry for exactly `(d, t)`, then `cancel_booking c` succeeds and
promotes: the slot ends booked, in a single update (so it never passes
through the available status), with the alias and topic of the
earliest-inserted matching waitlist entry under the freshly generated
code; exactly that entry is removed, all other entries stay in order,
every other slot is untouched, and a single save is emitted. -/
theorem claim_C2_cancel_promotes (newCode c : String) (s : Store)
    (hwf : wfStore s) {d t : String} {v : Slot}
    (hf : findCode c s.slots = some (d, t, v)) (_hbk : v.status = "booked")
    {w : WaitlistEntry} {r : List WaitlistEntry}
    (hp : popFirst (wlMatch d t) s.waitlist = some (w, r)) :
    (cancel_booking newCode c s).res.status = "success" ∧
    (cancel_booking newCode c s).res.promoted =
      some ⟨newCode, w.user_alias, w.waitlist_id⟩ ∧
    getSlot d t (cancel_booking newCode c s).store.slots =
      some ⟨"booked", some newCode, some w.topic, some w.user_alias⟩ ∧
    (∀ d1 t1, ¬(d1 = d ∧ t1 = t) →
      getSlot d1 t1 (cancel_booking newCode c s).store.slots = getSlot d1 t1 s.slots) ∧
    (cancel_booking newCode c s).store.waitlist = r ∧
    (∃ l1 l2, s.waitlist = l1 ++ w :: l2 ∧ r = l1 ++ l2 ∧
      (∀ x ∈ l1, ¬(x.date = d ∧ x.time = t)) ∧ w.date = d ∧ w.time = t) ∧
    (cancel_booking newCode c s).events = [Evt.save] := by
  obtain ⟨times, hd, ht, hb⟩ := findCode_get hwf.1 hwf.2 hf
  have hout : cancel_booking newCode c s =
      ⟨⟨"success",
          "Booking " ++ c ++ " cancelled. " ++ w.user_alias ++ " promoted from waitlist!",
          some d, some t, some ⟨newCode, w.user_alias, w.waitlist_id⟩⟩,
        ⟨setSlot d t ⟨"booked", some newCode, some w.topic, some w.user_alias⟩ s.slots,
          r⟩, [Evt.save]⟩ := by
    unfold cancel_booking
    rw [hf]
    show (match popFirst (wlMatch d t) s.waitlist with
      | some (w, rest) => _
      | none => _) = _
    rw [hp]
  obtain ⟨l1, l2, hl, hr, hall, hpw⟩ := popFirst_eq_some hp
  refine ⟨by rw [hout], by rw [hout], ?_, ?_, by rw [hout], ?_, by rw [hout]⟩
  · rw [hout]
    exact getSlot_setSlot_self _ hd
  · intro d1 t1 hne
    rw [hout]
    refine getSlot_setSlot_other _ _ ?_
    by_cases h1 : d1 = d
    · exact Or.inr (fun h2 => hne ⟨h1, h2⟩)
    · exact Or.inl h1
  · refine ⟨l1, l2, hl, hr, ?_, ?_, ?_⟩
    · intro x hx
      have := hall x hx
      simpa [wlMatch] using this
    · have := hpw
      simp [wlMatch] at this
      exact this.1
    · have := hpw
      simp [wlMatch] at this
      exact this.2

/-- Witness for the amended C2 at a concrete store: Alice's booking is
cancelled and Bob is promoted from the waitlist under the fresh code. -/
theorem claim_C2_witness :
    (cancel_booking "NL-BBBB" "NL-AAAA" exWaitStore).res.status = "success" ∧
    getSlot "2026-01-07" "14:00"
        (cancel_booking "NL-BBBB" "NL-AAAA" exWaitStore).store.slots =
      some ⟨"booked", some "NL-BBBB", some "SIP/Mandates", some "Bob"⟩ ∧
    (cancel_booking "NL-BBBB" "NL-AAAA" exWaitStore).store.waitlist = [] := by
  have h := claim_C2_cancel_promotes "NL-BBBB" "NL-AAAA" exWaitStore (by decide)
    (d := "2026-01-07") (t := "14:00")
    (v := ⟨"booked", some "NL-AAAA", some "KYC/Onboarding", some "Alice"⟩)
    (by decide) (by decide)
    (w := ⟨"2026-01-07", "14:00", "SIP/Mandates", "Bob", "NL-WWWW"⟩)
    (r := []) (by decide)
  exact ⟨h.1, h.2.2.1, h.2.2.2.2.1⟩

/-- C5.  After every successful `reschedule_booking(c, nd, nt)` (the
booking is found at `(od, ot)`, the target cell exists and is
available): the vacated slot is reset to available, the target slot
holds the full moved payload (same code `c`, same status "booked", same
topic and alias, since the whole slot record is copied), no third slot
is affected, the waitlist is unchanged (in particular no waitlisted user
for the vacated slot is promoted), and a single save is emitted.  The
store is assumed well-formed and to satisfy the data model's
booked-iff-code invariant. -/
theorem claim_C5_reschedule_moves (c nd nt : String) (s : Store) (od ot : String) (v : Slot)
    (times : List (String × Slot)) (target : Slot)
    (hwf : wfStore s) (hinv : storeInvB s = true)
    (hf : findCode c s.slots = some (od, ot, v))
    (hd2 : dictGet nd s.slots = some times) (ht2 : dictGet nt times = some target)
    (hav : target.status = "available") :
    (reschedule_booking c nd nt s).res.status = "success" ∧
    v.booking_id = some c ∧ v.status = "booked" ∧
    getSlot od ot (reschedule_booking c nd nt s).store.slots =
      some ⟨"available", none, none, none⟩ ∧
    getSlot nd nt (reschedule_booking c nd nt s).store.slots = some v ∧
    (∀ d1 t1, ¬(d1 = od ∧ t1 = ot) → ¬(d1 = nd ∧ t1 = nt) →
      getSlot d1 t1 (reschedule_booking c nd nt s).store.slots = getSlot d1 t1 s.slots) ∧
    (reschedule_booking c nd nt s).store.waitlist = s.waitlist ∧
    (reschedule_booking c nd nt s).events = [Evt.save] := by
  obtain ⟨timesO, hdo, hto, hb⟩ := findCode_get hwf.1 hwf.2 hf
  have hvb : v.status = "booked" := by
    have h0 := storeInvB_mem hinv (findCode_mem hf)
    simp [slotInvB, hb] at h0
    exact h0
  have hcell : ¬(nd = od ∧ nt = ot) := by
    rintro ⟨h1, h2⟩
    subst h1
    subst h2
    rw [hd2] at hdo
    injection hdo with h3
    rw [← h3] at hto
    rw [ht2] at hto
    injection hto with h4
    rw [← h4, hav] at hvb
    simp at hvb
  have hns : ¬(target.status ≠ "available") := fun hcon => hcon hav
  have hout : reschedule_booking c nd nt s =
      ⟨⟨"success",
          "Booking rescheduled from " ++ od ++ " " ++ ot ++ " to " ++ nd ++ " " ++ nt,
          some ⟨c, nd, nt, v.topic.getD "", v.user_alias.getD ""⟩⟩,
        ⟨setSlot nd nt v (setSlot od ot ⟨"available", none, none, none⟩ s.slots),
          s.waitlist⟩, [Evt.save]⟩ := by
    unfold reschedule_booking
    rw [hf]
    show (match dictGet nd s.slots with
      | none => _
      | some times => _) = _
    rw [hd2]
    show (match dictGet nt times with
      | none => _
      | some target => _) = _
    rw [ht2]
    show (if target.status ≠ "available" then _ else _) = _
    rw [if_neg hns]
  obtain ⟨times1, tgt1, hd3, ht3, _⟩ := setSlot_cell_get hdo nd nt hd2 ht2
  have hor : od ≠ nd ∨ ot ≠ nt := by
    by_cases h1 : od = nd
    · refine Or.inr ?_
      intro h2
      exact hcell ⟨h1.symm, h2.symm⟩
    · exact Or.inl h1
  refine ⟨by rw [hout], hb, hvb, ?_, ?_, ?_, by rw [hout], by rw [hout]⟩
  · rw [hout]
    show getSlot od ot (setSlot nd nt v
      (setSlot od ot ⟨"available", none, none, none⟩ s.slots)) = _
    rw [getSlot_setSlot_other _ _ hor]
    exact getSlot_setSlot_self _ hdo
  · rw [hout]
    show getSlot nd nt (setSlot nd nt v
      (setSlot od ot ⟨"available", none, none, none⟩ s.slots)) = _
    exact getSlot_setSlot_self _ hd3
  · intro d1 t1 hne1 hne2
    rw [hout]
    show getSlot d1 t1 (setSlot nd nt v
      (setSlot od ot ⟨"available", none, none, none⟩ s.slots)) = _
    have ho1 : d1 ≠ nd ∨ t1 ≠ nt := by
      by_cases h1 : d1 = nd
      · exact Or.inr (fun h2 => hne2 ⟨h1, h2⟩)
      · exact Or.inl h1
    have ho2 : d1 ≠ od ∨ t1 ≠ ot := by
      by_cases h1 : d1 = od
      · exact Or.inr (fun h2 => hne1 ⟨h1, h2⟩)
      · exact Or.inl h1
    rw [getSlot_setSlot_other _ _ ho1, getSlot_setSlot_other _ _ ho2]

/-- Witness for C5: moving a concrete booking from 14:00 to 15:00 on
the same day. -/
theorem claim_C5_witness :
    (reschedule_booking "NL-AAAA" "2026-01-07" "15:00" exStoreTaken).res.status =
      "success" ∧
    getSlot "2026-01-07" "14:00"
        (reschedule_booking "NL-AAAA" "2026-01-07" "15:00" exStoreTaken).store.slots =
      some ⟨"available", none, none, none⟩ ∧
    getSlot "2026-01-07" "15:00"
        (reschedule_booking "NL-AAAA" "2026-01-07" "15:00" exStoreTaken).store.slots =
      some ⟨"booked", some "NL-AAAA", some "KYC/Onboarding", some "Alice"⟩ ∧
    (reschedule_booking "NL-AAAA" "2026-01-07" "15:00" exStoreTaken).store.waitlist =
      exStoreTaken.waitlist := by
  have h := claim_C5_reschedule_moves "NL-AAAA" "2026-01-07" "15:00" exStoreTaken
    "2026-01-07" "14:00" ⟨"booked", some "NL-AAAA", some "KYC/Onboarding", some "Alice"⟩
    [("14:00", ⟨"booked", some "NL-AAAA", some "KYC/Onboarding", some "Alice"⟩),
     ("15:00", freshSlot)] freshSlot
    (by decide) (by decide) (by decide) (by decide) (by decide) (by decide)
  exact ⟨h.1, h.2.2.2.1, h.2.2.2.2.1, h.2.2.2.2.2.2.1⟩

/-- C7 counterexample.  In `exStoreTaken` the slot (2026-01-07, 15:00)
exists and is available, and booking it succeeds returning the drawn
code NL-AAAA; but that code already sits on the 14:00 slot, which comes
first in iteration order, so `lookup_booking` on the resulting store
returns the 14:00 booking (Alice, KYC/Onboarding) instead of the
time/topic/alias just booked. -/
theorem claim_C7_counterexample :
    getSlot "2026-01-07" "15:00" exStoreTaken.slots = some freshSlot ∧
    freshSlot.status = "available" ∧
    (book_slot "NL-AAAA" true "2026-01-07" "15:00" "Withdrawals" "Bob"
      exStoreTaken).res.status = "success" ∧
    (book_slot "NL-AAAA" true "2026-01-07" "15:00" "Withdrawals" "Bob"
      exStoreTaken).res.code = some "NL-AAAA" ∧
    lookup_booking "NL-AAAA"
        (book_slot "NL-AAAA" true "2026-01-07" "15:00" "Withdrawals" "Bob"
          exStoreTaken).store =
      ⟨"success", none, some ⟨"NL-AAAA", "2026-01-07", "14:00", "KYC/Onboarding", "Alice"⟩⟩ := by
  decide

/-- C7 amended.  If slot `(d, t)` exists and is available and the drawn
code is not already present as the `booking_id` of any slot, then
`book_slot` succeeds returning that code and `lookup_booking` of the
code on the resulting store returns status success with exactly the
date, time, topic and alias just booked. -/
theorem claim_C7_book_lookup_roundtrip (newCode : String) (cal : Bool)
    (d t top a : String) (s : Store) (times : List (String × Slot)) (slot : Slot)
    (hd : dictGet d s.slots = some times)
    (ht : dictGet t times = some slot) (hav : slot.status = "available")
    (hfresh : newCode ∉ usedCodes s) :
    (book_slot newCode cal d t top a s).res.status = "success" ∧
    (book_slot newCode cal d t top a s).res.code = some newCode ∧
    lookup_booking newCode (book_slot newCode cal d t top a s).store =
      ⟨"success", none, some ⟨newCode, d, t, top, a⟩⟩ := by
  have hns : ¬(slot.status ≠ "available") := fun hcon => hcon hav
  have hout : book_slot newCode cal d t top a s =
      ⟨⟨"success",
          if cal then "Booking Confirmed! Event added to your Google Calendar."
          else "Booking saved locally. Note: Calendar event could not be created automatically.",
          some newCode, some d, some t, some top, some a⟩,
        ⟨setSlot d t ⟨"booked", some newCode, some top, some a⟩ s.slots, s.waitlist⟩,
        [Evt.save]⟩ := by
    unfold book_slot
    rw [hd]
    show (match dictGet t times with
      | none => _
      | some slot => _) = _
    rw [ht]
    show (if slot.status ≠ "available" then _ else _) = _
    rw [if_neg hns]
  have hfind : findCode newCode
      (setSlot d t ⟨"booked", some newCode, some top, some a⟩ s.slots) =
      some (d, t, ⟨"booked", some newCode, some top, some a⟩) := by
    obtain ⟨l1, l2, h1, h2⟩ :=
      flatten_setSlot ⟨"booked", some newCode, some top, some a⟩ hd ht
    rw [findCode_eq_findFlat, h2]
    have hl1 : findFlat newCode l1 = none := by
      refine findFlat_none ?_
      intro x hx hcon
      refine hfresh ?_
      unfold usedCodes
      rw [h1]
      exact List.mem_filterMap.mpr ⟨x, List.mem_append_left _ hx, hcon⟩
    rw [findFlat_append, hl1]
    show findFlat newCode ((d, t, ⟨"booked", some newCode, some top, some a⟩) :: l2) = _
    simp [findFlat]
  rw [hout]
  refine ⟨rfl, rfl, ?_⟩
  unfold lookup_booking
  rw [hfind]
  rfl

/-- Witness for the amended C7: a fresh code round-trips on the fresh
store. -/
theorem claim_C7_witness :
    (book_slot "NL-X99Z" true "2026-01-08" "14:00" "SIP/Mandates" "Dana"
      freshStore).res.status = "success" ∧
    lookup_booking "NL-X99Z"
        (book_slot "NL-X99Z" true "2026-01-08" "14:00" "SIP/Mandates" "Dana"
          freshStore).store =
      ⟨"success", none, some ⟨"NL-X99Z", "2026-01-08", "14:00", "SIP/Mandates", "Dana"⟩⟩ := by
  have h := claim_C7_book_lookup_roundtrip "NL-X99Z" true "2026-01-08" "14:00"
    "SIP/Mandates" "Dana" freshStore [("14:00", freshSlot), ("15:00", freshSlot)] freshSlot
    (by decide) (by decide) (by decide) (by decide)
  exact ⟨h.1, h.2.2⟩

/-- C6 counterexample.  In `exWaitStore` the cancellation succeeds via
the waitlist-promotion outcome, but the event trace is just the single
save: no cancellation notification is emitted, because the promotion
branch returns before the webhook block.  The claim asserts the
notification is emitted in both success outcomes. -/
theorem claim_C6_counterexample :
    (cancel_booking "NL-BBBB" "NL-AAAA" exWaitStore).res.status = "success" ∧
    (cancel_booking "NL-BBBB" "NL-AAAA" exWaitStore).events = [Evt.save] := by
  decide

/-- C6 amended.  For every successful `cancel_booking(c)`: in the
reset-to-available outcome the operation persists once and then emits
the cancellation notification (events `[save, notifyCancel]` in that
order); in the waitlist-promotion outcome it persists once and returns
without emitting the notification (events `[save]`). -/
theorem claim_C6_cancel_notify_only_reset (newCode c : String) (s : Store)
    (d t : String) (v : Slot) (hf : findCode c s.slots = some (d, t, v)) :
    (popFirst (wlMatch d t) s.waitlist = none →
      (cancel_booking newCode c s).res.status = "success" ∧
      (cancel_booking newCode c s).events = [Evt.save, Evt.notifyCancel c d t]) ∧
    (∀ w r, popFirst (wlMatch d t) s.waitlist = some (w, r) →
      (cancel_booking newCode c s).res.status = "success" ∧
      (cancel_booking newCode c s).events = [Evt.save]) := by
  constructor
  · intro hp
    have hout : cancel_booking newCode c s =
        ⟨⟨"success", "Booking " ++ c ++ " cancelled successfully", some d, some t, none⟩,
          ⟨setSlot d t ⟨"available", none, none, none⟩ s.slots, s.waitlist⟩,
          [Evt.save, Evt.notifyCancel c d t]⟩ := by
      unfold cancel_booking
      rw [hf]
      show (match popFirst (wlMatch d t) s.waitlist with
        | some (w, rest) => _
        | none => _) = _
      rw [hp]
    rw [hout]
    exact ⟨rfl, rfl⟩
  · intro w r hp
    have hout : cancel_booking newCode c s =
        ⟨⟨"success",
            "Booking " ++ c ++ " cancelled. " ++ w.user_alias ++ " promoted from waitlist!",
            some d, some t, some ⟨newCode, w.user_alias, w.waitlist_id⟩⟩,
          ⟨setSlot d t ⟨"booked", some newCode, some w.topic, some w.user_alias⟩ s.slots,
            r⟩, [Evt.save]⟩ := by
      unfold cancel_booking
      rw [hf]
      show (match popFirst (wlMatch d t) s.waitlist with
        | some (w, rest) => _
        | none => _) = _
      rw [hp]
    rw [hout]
    exact ⟨rfl, rfl⟩

/-- Witness for the amended C6: the reset outcome emits save followed
by the webhook event, the promotion outcome emits save only. -/
theorem claim_C6_witness :
    (cancel_booking "NL-BBBB" "NL-AAAA" exStoreTaken).events =
      [Evt.save, Evt.notifyCancel "NL-AAAA" "2026-01-07" "14:00"] ∧
    (cancel_booking "NL-CCCC" "NL-AAAA" exWaitStore).events = [Evt.save] :=
  ⟨((claim_C6_cancel_notify_only_reset "NL-BBBB" "NL-AAAA" exStoreTaken "2026-01-07" "14:00"
      ⟨"booked", some "NL-AAAA", some "KYC/Onboarding", some "Alice"⟩ (by decide)).1
      (by decide)).2,
    ((claim_C6_cancel_notify_only_reset "NL-CCCC" "NL-AAAA" exWaitStore "2026-01-07" "14:00"
      ⟨"booked", some "NL-AAAA", some "KYC/Onboarding", some "Alice"⟩ (by decide)).2
      ⟨"2026-01-07", "14:00", "SIP/Mandates", "Bob", "NL-WWWW"⟩ [] (by decide)).2⟩

/-- Auxiliary for C8: when every model reply requests at least one tool
call, the loop consumes its whole fuel budget, invoking the model once
per fuel unit, and ends in the fallback result. -/
theorem chatLoop_all_tool_calls (oracle : List HItem → Reply)
    (impl : String → List (String × String) → Except String ToolVal)
    (horacle : ∀ h, (oracle h).filterMap (fun p => p.function_call) ≠ []) :
    ∀ (fuel : Nat) (hist : List HItem) (uiHint : Option UiHint) (calls : Nat),
      (chatLoop oracle impl fuel hist uiHint calls).1 =
        ⟨fallbackMessage, none, calls + fuel⟩ := by
  intro fuel
  induction fuel with
  | zero =>
    intro hist uiHint calls
    rfl
  | succ n ih =>
    intro hist uiHint calls
    have hne : ¬(oracle hist = []) := by
      intro hcon
      apply horacle hist
      rw [hcon]
      rfl
    show (chatLoop oracle impl (n + 1) hist uiHint calls).1 = _
    unfold chatLoop
    rw [if_neg hne, if_pos (horacle hist)]
    rw [ih]
    have harith : calls + 1 + n = calls + (n + 1) := by omega
    rw [harith]

/-- C8.  For every model oracle whose replies always contain at least
one tool call (and hence never a terminal plain-text answer),
`LLMEngine.chat` terminates after exactly the fixed bound of 10 model
invocations and returns the fixed fallback message (with no ui hint);
it is a total function, so no exception escapes.  Moreover
`_execute_function` converts a raising tool into the `{error: message}`
result and an unknown tool name into the unknown-function error dict
rather than propagating. -/
theorem claim_C8_orchestrator_liveness (oracle : List HItem → Reply)
    (impl : String → List (String × String) → Except String ToolVal)
    (user_message : String) (hist : List HItem)
    (horacle : ∀ h, (oracle h).filterMap (fun p => p.function_call) ≠ []) :
    (chat oracle impl user_message hist).1 = ⟨fallbackMessage, none, 10⟩ ∧
    (∀ name args msg, name ∈ knownFunctions → impl name args = Except.error msg →
      execute_function impl name args = ToolVal.errDict msg) ∧
    (∀ name args, name ∉ knownFunctions →
      execute_function impl name args = ToolVal.errDict ("Unknown function: " ++ name)) := by
  refine ⟨?_, ?_, ?_⟩
  · unfold chat
    rw [chatLoop_all_tool_calls oracle impl horacle]
  · intro name args msg hmem himpl
    unfold execute_function
    rw [if_pos hmem, himpl]
  · intro name args hmem
    unfold execute_function
    rw [if_neg hmem]

/-- A model stub that always requests one book_slot tool call. -/
def exOracle : List HItem → Reply :=
  fun _ => [⟨some ⟨"book_slot", []⟩, none⟩]

/-- A tool stub that always raises. -/
def exImpl : String → List (String × String) → Except String ToolVal :=
  fun _ _ => Except.error "boom"

/-- Witness for C8: the always-tool-calling stub model hits the
10-iteration cutoff with the fallback message, and the raising tool is
converted to an error dict. -/
theorem claim_C8_witness :
    (chat exOracle exImpl "Hello" []).1 = ⟨fallbackMessage, none, 10⟩ ∧
    execute_function exImpl "book_slot" [] = ToolVal.errDict "boom" := by
  have h := claim_C8_orchestrator_liveness exOracle exImpl "Hello" []
    (by
      intro h1
      show List.filterMap (fun p => p.function_call)
        [(⟨some ⟨"book_slot", []⟩, none⟩ : MPart)] ≠ []
      decide)
  exact ⟨h.1, h.2.1 "book_slot" [] "boom" (by decide) rfl⟩

end Scheduler
